import Mathlib

/-!
Verification development for the SFU control plane of the conclave
repository.  The data model and the operations below are a shallow
embedding of the TypeScript sources:

* `packages/sfu/server/admin/controlPlane.ts`
  (`resolveRoom`, `closeProducerById`, `closeClientProducers`,
  `applyRoomPolicyUpdate`, pending admission helpers),
* `packages/sfu/server/http/createApp.ts` (operator HTTP routes),
* `packages/sfu/server/socket/handlers/adminHandlers.ts`
  (admin socket handlers, `performBulkMediaClosure`),
* the `RoomTranscriber` dedup logic and the `/minutes` single flight
  registry.

The classes `Room` and `Client` (under `packages/sfu/config/classes/`)
are not part of the provided sources; their primitive operations are
modelled from the specification and are marked as such in their doc
comments.  Stateful TypeScript code is embedded as explicit state
passing; every socket or channel emission is recorded in an `Emit`
trace.
-/

inductive MediaKind where
  | audio
  | video
deriving DecidableEq, Repr

inductive ProducerType where
  | webcam
  | screen
deriving DecidableEq, Repr

/-- A producer reference as stored on a participant: id plus the
`(kind, type)` tag. -/
structure ProducerRef where
  producerId : String
  kind : MediaKind
  ptype : ProducerType
deriving DecidableEq, Repr

/-- A participant (`Client` / `Admin` instance).  `isAdmin` embeds the
`instanceof Admin` discrimination used by the source. -/
structure Client where
  id : String
  isAdmin : Bool
  isGhost : Bool
  isWebinarAttendee : Bool
  socketId : String
  producers : List ProducerRef
deriving DecidableEq, Repr

/-- A waiting-room entry (`pendingClients` value), keyed by `userKey`. -/
structure PendingEntry where
  userId : String
  userKey : String
  displayName : String
  socketId : String
deriving DecidableEq, Repr

/-- The per-room state used by the admin control plane.  Maps are
embedded as association lists in insertion order; the string-set access
lists are lists without duplicates under the set operations below. -/
structure Room where
  id : String
  clientId : String
  channelId : String
  clients : List Client
  userKeysById : List (String × String)
  pendingClients : List PendingEntry
  allowedUsers : List String
  lockedAllowedUsers : List String
  blockedUsers : List String
  isLocked : Bool
  isChatLocked : Bool
  noGuests : Bool
  isTtsDisabled : Bool
  isDmEnabled : Bool
  screenShareProducerId : Option String
deriving DecidableEq, Repr

/-- Process-global state (`SfuState`): the room registry keyed by
channel id; the key of each entry is the `channelId` field of the room. -/
structure SfuState where
  rooms : List Room
deriving DecidableEq, Repr

/-- One observable side effect of a control-plane operation: a
per-socket emission, a channel broadcast, a disconnect, or a timed
sleep. -/
inductive Emit where
  | toSocket (socketId : String) (event : String)
  | toChannel (channelId : String) (event : String)
  | disconnectSocket (socketId : String)
  | disconnectChannel (channelId : String)
  | sleep (ms : Int)
deriving DecidableEq, Repr

/-- Set-style insertion used by the access lists (`Set.add`). -/
def addKey (keys : List String) (key : String) : List String :=
  if key ∈ keys then keys else keys ++ [key]

/-- Set-style removal used by the access lists (`Set.delete`). -/
def removeKey (keys : List String) (key : String) : List String :=
  keys.filter (fun k => k ≠ key)

/-- Modelled from the spec: `Room.allowUser(key)` of
`packages/sfu/config/classes/Room.ts` (not under the provided sources)
is a set insertion into `allowedUserKeys`. -/
def Room.allowUser (room : Room) (key : String) : Room :=
  { room with allowedUsers := addKey room.allowedUsers key }

/-- Modelled from the spec: `Room.revokeAllowedUser(key)` removes the
key from `allowedUserKeys`. -/
def Room.revokeAllowedUser (room : Room) (key : String) : Room :=
  { room with allowedUsers := removeKey room.allowedUsers key }

/-- Modelled from the spec: `Room.allowLockedUser(key)` is a set
insertion into `lockedAllowedUserKeys`. -/
def Room.allowLockedUser (room : Room) (key : String) : Room :=
  { room with lockedAllowedUsers := addKey room.lockedAllowedUsers key }

/-- Modelled from the spec: `Room.revokeLockedAllowedUser(key)` removes
the key from `lockedAllowedUserKeys`. -/
def Room.revokeLockedAllowedUser (room : Room) (key : String) : Room :=
  { room with lockedAllowedUsers := removeKey room.lockedAllowedUsers key }

/-- Modelled from the spec: `Room.blockUser(key)` is a set insertion
into `blockedUserKeys`; per the spec it does not implicitly remove the
key from `allowedUserKeys`. -/
def Room.blockUser (room : Room) (key : String) : Room :=
  { room with blockedUsers := addKey room.blockedUsers key }

/-- Modelled from the spec: `Room.unblockUser(key)` removes the key
from `blockedUserKeys`; it does not restore prior allow state. -/
def Room.unblockUser (room : Room) (key : String) : Room :=
  { room with blockedUsers := removeKey room.blockedUsers key }

/-- Modelled from the spec: `Room.removePendingClient(userKey)` deletes
the waiting-room entry keyed by the user key. -/
def Room.removePendingClient (room : Room) (key : String) : Room :=
  { room with pendingClients := room.pendingClients.filter (fun p => p.userKey ≠ key) }

/-- Modelled from the spec: `Room.setLocked` sets the `locked` policy
flag (the grandfather copy into `lockedAllowedUserKeys` is performed by
the caller `applyRoomPolicyUpdate`, which is part of the sources). -/
def Room.setLocked (room : Room) (b : Bool) : Room :=
  { room with isLocked := b }

/-- Modelled from the spec: `Room.setChatLocked` sets the `chatLocked`
policy flag. -/
def Room.setChatLocked (room : Room) (b : Bool) : Room :=
  { room with isChatLocked := b }

/-- Modelled from the spec: `Room.setNoGuests` sets the `noGuests`
policy flag. -/
def Room.setNoGuests (room : Room) (b : Bool) : Room :=
  { room with noGuests := b }

/-- Modelled from the spec: `Room.setTtsDisabled` sets the
`ttsDisabled` policy flag. -/
def Room.setTtsDisabled (room : Room) (b : Bool) : Room :=
  { room with isTtsDisabled := b }

/-- Modelled from the spec: `Room.setDmEnabled` sets the `dmEnabled`
policy flag. -/
def Room.setDmEnabled (room : Room) (b : Bool) : Room :=
  { room with isDmEnabled := b }

/-- Modelled from the spec: `Room.clearScreenShareProducer(id)` clears
the screen-share marker only when the ids match. -/
def Room.clearScreenShareProducer (room : Room) (producerId : String) : Room :=
  if room.screenShareProducerId = some producerId then
    { room with screenShareProducerId := none }
  else room

/-- `room.getClient(userId)`: lookup in the `clients` map. -/
def Room.getClient (room : Room) (userId : String) : Option Client :=
  room.clients.find? (fun c => c.id = userId)

/-- `room.getAdmins()`: the participants that are `Admin` instances. -/
def Room.getAdmins (room : Room) : List Client :=
  room.clients.filter (fun c => c.isAdmin)

/-- `room.pendingClients.get(userKey)`: lookup in the waiting-room map. -/
def Room.pendingGet (room : Room) (key : String) : Option PendingEntry :=
  room.pendingClients.find? (fun p => p.userKey = key)

/-- Replacing the participant with the same `userId` (object mutation of
a `clients` map value in the source). -/
def Room.updateClient (room : Room) (c : Client) : Room :=
  { room with clients := room.clients.map (fun d => if d.id = c.id then c else d) }

/-- Modelled from the spec: `Client.removeProducerById` of
`packages/sfu/config/classes/Client.ts` (not under the provided
sources) removes the producer entry with the given id and reports its
`(kind, type)` info, or reports nothing when the id is absent. -/
def Client.removeProducerById (c : Client) (producerId : String) :
    Option (ProducerRef × Client) :=
  match c.producers.find? (fun p => p.producerId = producerId) with
  | some p =>
      some (p, { c with producers := c.producers.filter (fun q => q.producerId ≠ producerId) })
  | none => none


/-! ### Moderation engine (`controlPlane.ts`) -/

/-- `notifyProducerClosed` (controlPlane.ts): a `producerClosed` event to
every peer except the owner and the webinar attendees, then an
`admin:producerClosed` broadcast on the room channel. -/
def notifyProducerClosed (room : Room) (ownerId : String) : List Emit :=
  (room.clients.filter (fun c => ¬(c.id = ownerId ∨ c.isWebinarAttendee))).map
    (fun c => Emit.toSocket c.socketId "producerClosed")
  ++ [Emit.toChannel room.channelId "admin:producerClosed"]

/-- Modelled from the spec: `emitWebinarFeedChanged` of
`webinarNotifications.ts` (not under the provided sources) is a single
fan-out broadcast on the room channel; the claims below only need that
it is an emission and not a state mutation. -/
def emitWebinarFeedChanged (room : Room) : List Emit :=
  [Emit.toChannel room.channelId "webinarFeedChanged"]

/-- The result record of `closeProducerById`. -/
structure CloseResult where
  closed : Bool
  userId : Option String
  kind : Option MediaKind
  ptype : Option ProducerType
deriving DecidableEq, Repr

/-- The `for (const client of room.clients.values())` loop of
`closeProducerById`: the first participant whose `removeProducerById`
succeeds, together with the removed producer info and the updated
participant. -/
def findProducerOwner (producerId : String) :
    List Client → Option (Client × ProducerRef × Client)
  | [] => none
  | c :: rest =>
      match c.removeProducerById producerId with
      | some (p, c2) => some (c, p, c2)
      | none => findProducerOwner producerId rest

/-- `closeProducerById` (controlPlane.ts): locate the owner, remove the
producer, clear the screen-share marker for a closed screen producer,
notify peers and administrators, and send `admin:mediaEnforced` to the
owner; a miss reports `closed = false` with no mutation and no
emission. -/
def closeProducerById (room : Room) (producerId : String) :
    CloseResult × Room × List Emit :=
  match findProducerOwner producerId room.clients with
  | none => (⟨false, none, none, none⟩, room, [])
  | some (c, removed, c2) =>
      let room1 := room.updateClient c2
      let room2 :=
        if removed.kind = MediaKind.video ∧ removed.ptype = ProducerType.screen then
          room1.clearScreenShareProducer producerId
        else room1
      (⟨true, some c.id, some removed.kind, some removed.ptype⟩,
        room2,
        notifyProducerClosed room2 c.id
          ++ emitWebinarFeedChanged room2
          ++ [Emit.toSocket c.socketId "admin:mediaEnforced"])

/-- A media selector (`{kinds?, types?}`); an omitted field matches
everything. -/
structure Selector where
  kinds : Option (List MediaKind)
  types : Option (List ProducerType)
deriving DecidableEq, Repr

/-- `shouldCloseProducer` (controlPlane.ts). -/
def shouldCloseProducer (selector : Selector) (info : ProducerRef) : Bool :=
  match selector.kinds with
  | some kinds => if info.kind ∈ kinds then
      match selector.types with
      | some types => info.ptype ∈ types
      | none => true
    else false
  | none =>
      match selector.types with
      | some types => info.ptype ∈ types
      | none => true

/-- The result of `closeClientProducers`. -/
structure CloseManyResult where
  closedProducers : List ProducerRef
  room : Room
  emits : List Emit
deriving DecidableEq, Repr

/-- The `for (const info of infos)` loop of `closeClientProducers`:
close each selected producer of the target, collecting the closed
producer records and the peer notifications. -/
def closeProducersLoop (targetId : String) :
    List ProducerRef → Room → List ProducerRef → List Emit → CloseManyResult
  | [], room, closedAcc, emitAcc => ⟨closedAcc, room, emitAcc⟩
  | info :: rest, room, closedAcc, emitAcc =>
      match room.getClient targetId with
      | none => closeProducersLoop targetId rest room closedAcc emitAcc
      | some t =>
          match t.removeProducerById info.producerId with
          | none => closeProducersLoop targetId rest room closedAcc emitAcc
          | some (removed, t2) =>
              let room1 := (Room.updateClient room t2)
              let room2 :=
                if removed.kind = MediaKind.video ∧ removed.ptype = ProducerType.screen then
                  room1.clearScreenShareProducer info.producerId
                else room1
              closeProducersLoop targetId rest room2
                (closedAcc ++ [⟨info.producerId, removed.kind, removed.ptype⟩])
                (emitAcc ++ notifyProducerClosed room2 targetId)

/-- `closeClientProducers` (controlPlane.ts): enumerate the producers of
the target that match the selector, close each, and when at least one
was closed emit the webinar feed update plus one aggregate
`admin:mediaEnforced` to the target. -/
def closeClientProducers (room : Room) (userId : String) (selector : Selector) :
    CloseManyResult :=
  match room.getClient userId with
  | none => ⟨[], room, []⟩
  | some target =>
      let infos := target.producers.filter (shouldCloseProducer selector)
      let out := closeProducersLoop userId infos room [] []
      if out.closedProducers.length > 0 then
        { out with
            emits := out.emits ++ emitWebinarFeedChanged out.room
              ++ [Emit.toSocket target.socketId "admin:mediaEnforced"] }
      else out

/-- The accumulator/result of `performBulkMediaClosure`
(adminHandlers.ts). -/
structure BulkResult where
  room : Room
  affectedUsers : Nat
  affectedProducers : Nat
  users : List String
  emits : List Emit
deriving DecidableEq, Repr

/-- One iteration of the `for (const client of room.clients.values())`
loop of `performBulkMediaClosure`: the exclusion flags are checked on
the participant and `closeClientProducers` runs against the current
room state. -/
def bulkStep (selector : Selector)
    (includeAdmins includeGhosts includeAttendees : Bool)
    (acc : BulkResult) (c : Client) : BulkResult :=
  if ¬includeAdmins ∧ c.isAdmin then acc
  else if ¬includeGhosts ∧ c.isGhost then acc
  else if ¬includeAttendees ∧ c.isWebinarAttendee then acc
  else
    let out := closeClientProducers acc.room c.id selector
    if out.closedProducers.length > 0 then
      { room := out.room
        affectedUsers := acc.affectedUsers + 1
        affectedProducers := acc.affectedProducers + out.closedProducers.length
        users := acc.users ++ [c.id]
        emits := acc.emits ++ out.emits }
    else
      { acc with room := out.room, emits := acc.emits ++ out.emits }

/-- `performBulkMediaClosure` (adminHandlers.ts): iterate the
participants respecting the include flags, aggregate the results, and
emit a room-wide `admin:bulkMediaEnforced` exactly when at least one
producer was closed. -/
def performBulkMediaClosure (room : Room) (selector : Selector)
    (includeAdmins includeGhosts includeAttendees : Bool) : BulkResult :=
  let final := room.clients.foldl
    (bulkStep selector includeAdmins includeGhosts includeAttendees)
    ⟨room, 0, 0, [], []⟩
  if final.affectedProducers > 0 then
    { final with
        emits := final.emits
          ++ [Emit.toChannel final.room.channelId "admin:bulkMediaEnforced"] }
  else final

/-! ### Room policy updates (`applyRoomPolicyUpdate`, controlPlane.ts) -/

/-- The partial policy update record (`RoomPolicyUpdate`); `none` embeds
an absent field (`typeof field !== "boolean"`). -/
structure RoomPolicyUpdate where
  locked : Option Bool
  chatLocked : Option Bool
  noGuests : Option Bool
  ttsDisabled : Option Bool
  dmEnabled : Option Bool
deriving DecidableEq, Repr

/-- The empty `changed` record. -/
def emptyPolicyUpdate : RoomPolicyUpdate := ⟨none, none, none, none, none⟩

/-- The intermediate state threaded through the five sequential blocks
of `applyRoomPolicyUpdate`. -/
structure PolicyStep where
  changed : RoomPolicyUpdate
  room : Room
  emits : List Emit
deriving DecidableEq, Repr

/-- The `locked` block of `applyRoomPolicyUpdate`: on a transition to
`locked = true` every current participant key is copied into
`lockedAllowedUserKeys`; a `roomLockChanged` broadcast is emitted on
any transition. -/
def lockedStep (update : RoomPolicyUpdate) (s : PolicyStep) : PolicyStep :=
  match update.locked with
  | some b =>
      if b ≠ s.room.isLocked then
        let r1 := s.room.setLocked b
        let r2 :=
          if b then
            s.room.userKeysById.foldl (fun r kv => r.allowLockedUser kv.2) r1
          else r1
        { changed := { s.changed with locked := some b }
          room := r2
          emits := s.emits ++ [Emit.toChannel s.room.channelId "roomLockChanged"] }
      else s
  | none => s

/-- The `chatLocked` block of `applyRoomPolicyUpdate`. -/
def chatLockedStep (update : RoomPolicyUpdate) (s : PolicyStep) : PolicyStep :=
  match update.chatLocked with
  | some b =>
      if b ≠ s.room.isChatLocked then
        { changed := { s.changed with chatLocked := some b }
          room := s.room.setChatLocked b
          emits := s.emits ++ [Emit.toChannel s.room.channelId "chatLockChanged"] }
      else s
  | none => s

/-- The `noGuests` block of `applyRoomPolicyUpdate`. -/
def noGuestsStep (update : RoomPolicyUpdate) (s : PolicyStep) : PolicyStep :=
  match update.noGuests with
  | some b =>
      if b ≠ s.room.noGuests then
        { changed := { s.changed with noGuests := some b }
          room := s.room.setNoGuests b
          emits := s.emits ++ [Emit.toChannel s.room.channelId "noGuestsChanged"] }
      else s
  | none => s

/-- The `ttsDisabled` block of `applyRoomPolicyUpdate`. -/
def ttsDisabledStep (update : RoomPolicyUpdate) (s : PolicyStep) : PolicyStep :=
  match update.ttsDisabled with
  | some b =>
      if b ≠ s.room.isTtsDisabled then
        { changed := { s.changed with ttsDisabled := some b }
          room := s.room.setTtsDisabled b
          emits := s.emits ++ [Emit.toChannel s.room.channelId "ttsDisabledChanged"] }
      else s
  | none => s

/-- The `dmEnabled` block of `applyRoomPolicyUpdate`. -/
def dmEnabledStep (update : RoomPolicyUpdate) (s : PolicyStep) : PolicyStep :=
  match update.dmEnabled with
  | some b =>
      if b ≠ s.room.isDmEnabled then
        { changed := { s.changed with dmEnabled := some b }
          room := s.room.setDmEnabled b
          emits := s.emits ++ [Emit.toChannel s.room.channelId "dmStateChanged"] }
      else s
  | none => s

/-- `applyRoomPolicyUpdate` (controlPlane.ts): the five policy blocks
applied in source order, starting from an empty `changed` record and an
empty emission trace. -/
def applyRoomPolicyUpdate (room : Room) (update : RoomPolicyUpdate) : PolicyStep :=
  dmEnabledStep update
    (ttsDisabledStep update
      (noGuestsStep update
        (chatLockedStep update
          (lockedStep update ⟨emptyPolicyUpdate, room, []⟩))))

/-! ### Waiting room and access list routes -/

/-- `String.prototype.trim()`: drop whitespace from both ends
(structural implementation on the character list, so that concrete
inputs evaluate). -/
def jsTrim (s : String) : String :=
  String.mk (((s.toList.dropWhile Char.isWhitespace).reverse.dropWhile
    Char.isWhitespace).reverse)

/-- `toStringOrEmpty` (createApp.ts). -/
def toStringOrEmpty (value : Option String) : String :=
  match value with
  | some s => jsTrim s
  | none => ""

/-- The `pendingUsersSnapshot` broadcast (`emitPendingUsersSnapshot`,
createApp.ts). -/
def pendingUsersSnapshotEmit (room : Room) : Emit :=
  Emit.toChannel room.channelId "pendingUsersSnapshot"

/-- An operator HTTP response of the waiting-room admit route. -/
inductive AdmitResponse where
  | badRequest
  | notFound
  | ok (room : Room) (emits : List Emit)
deriving DecidableEq, Repr

/-- The body of `POST /admin/rooms/:roomId/pending/:userKey/admit`
(createApp.ts), after secret, socket-server and room resolution
checks: allow the key (also through the locked gate when the room is
locked), approve the pending socket, notify the administrators and
broadcast the pending snapshot.  The route never calls
`removePendingClient`. -/
def admitPendingUserRoute (room : Room) (userKeyParam : Option String) : AdmitResponse :=
  let userKey := toStringOrEmpty userKeyParam
  if userKey = "" then AdmitResponse.badRequest
  else
    match room.pendingGet userKey with
    | none => AdmitResponse.notFound
    | some pending =>
        let room1 := if room.isLocked then room.allowLockedUser userKey else room
        let room2 := room1.allowUser userKey
        AdmitResponse.ok room2
          ([Emit.toSocket pending.socketId "joinApproved"]
            ++ room2.getAdmins.map (fun a => Emit.toSocket a.socketId "userAdmitted")
            ++ [pendingUsersSnapshotEmit room2])

/-- The per-key body of the `for (const userKey of userKeys)` loop
shared by `POST /admin/rooms/:roomId/access/allow` (createApp.ts) and
the `admin:allowUsers` socket handler (adminHandlers.ts): read the
pending entry, unblock, allow, optionally allow through the locked
gate, and approve a pending socket. -/
def allowOneKey (allowWhenLocked : Bool) (st : Room × List String × List Emit)
    (userKey : String) : Room × List String × List Emit :=
  let room := st.1
  let pending := room.pendingGet userKey
  let room1 := room.unblockUser userKey
  let room2 := room1.allowUser userKey
  let room3 :=
    if allowWhenLocked ∨ room2.isLocked then room2.allowLockedUser userKey
    else room2
  match pending with
  | some p =>
      (room3, st.2.1 ++ [userKey],
        st.2.2 ++ [Emit.toSocket p.socketId "joinApproved"]
          ++ room3.getAdmins.map (fun a => Emit.toSocket a.socketId "userAdmitted"))
  | none => (room3, st.2.1, st.2.2)

/-- The allow-users loop over a validated key list, as run by both the
HTTP route and the socket handler. -/
def allowUsersLoop (room : Room) (userKeys : List String) (allowWhenLocked : Bool) :
    Room × List String × List Emit :=
  userKeys.foldl (allowOneKey allowWhenLocked) (room, [], [])

/-- The per-key body of the `for (const userKey of userKeys)` loop
shared by `POST /admin/rooms/:roomId/access/block` (createApp.ts) and
the `admin:blockUsers` socket handler (adminHandlers.ts): read the
pending entry, block the key, reject a pending socket, and when
`kickPresent` kick every live session whose back-lookup equals the
key. -/
def blockOneKey (kickPresent : Bool) (st : Room × List String × List Emit)
    (userKey : String) : Room × List String × List Emit :=
  let room := st.1
  let pending := room.pendingGet userKey
  let room1 := room.blockUser userKey
  let rejected :=
    match pending with
    | some _ => st.2.1 ++ [userKey]
    | none => st.2.1
  let rejectEmits :=
    match pending with
    | some p => [Emit.toSocket p.socketId "joinRejected"]
    | none => []
  let kickEmits :=
    if kickPresent then
      (room1.userKeysById.filter (fun kv => kv.2 = userKey)).foldl
        (fun acc kv =>
          match room1.getClient kv.1 with
          | some target =>
              acc ++ [Emit.toSocket target.socketId "kicked",
                Emit.disconnectSocket target.socketId]
          | none => acc) []
    else []
  (room1, rejected, st.2.2 ++ rejectEmits ++ kickEmits)

/-- The block-users loop over a validated key list, as run by both the
HTTP route and the socket handler. -/
def blockUsersLoop (room : Room) (userKeys : List String) (kickPresent : Bool) :
    Room × List String × List Emit :=
  userKeys.foldl (blockOneKey kickPresent) (room, [], [])

/-! ### Room lookup (`resolveRoom`, controlPlane.ts / createApp.ts) -/

/-- Modelled from the spec: `getRoomChannelId` of `server/rooms.ts`
(not under the provided sources) builds the tenant-qualified channel
key `clientId:roomId`. -/
def getRoomChannelId (clientId roomId : String) : String :=
  clientId ++ ":" ++ roomId

/-- `state.rooms.get(channelId)`: registry lookup; the registry key of
a room is its `channelId` field. -/
def SfuState.getRoom (state : SfuState) (channelId : String) : Option Room :=
  state.rooms.find? (fun r => r.channelId = channelId)

/-- The `RoomLookupResult` union of `resolveRoom`. -/
inductive RoomLookupResult where
  | found (room : Room) (channelId : String)
  | failed (error : String) (candidates : Option (List String))
deriving DecidableEq, Repr

/-- `resolveRoom` (controlPlane.ts): with a concrete `clientId` the
lookup is by exact channel id; without one, the rooms of every tenant
with the requested room id become candidates, and more than one
candidate is an ambiguity carrying every candidate channel id. -/
def resolveRoom (state : SfuState) (roomId : String) (clientId : Option String) :
    RoomLookupResult :=
  let normalizedRoomId := jsTrim roomId
  if normalizedRoomId = "" then RoomLookupResult.failed "Room ID is required" none
  else
    let trimmedClientId := (clientId.map jsTrim).getD ""
    if trimmedClientId ≠ "" then
      let channelId := getRoomChannelId trimmedClientId normalizedRoomId
      match state.getRoom channelId with
      | none => RoomLookupResult.failed "Room not found" none
      | some room => RoomLookupResult.found room channelId
    else
      let candidates := state.rooms.filter (fun room => room.id = normalizedRoomId)
      if candidates.length = 0 then RoomLookupResult.failed "Room not found" none
      else if candidates.length > 1 then
        RoomLookupResult.failed "Room ID is ambiguous. Provide a clientId."
          (some (candidates.map (fun room => room.channelId)))
      else
        match candidates with
        | room :: _ => RoomLookupResult.found room room.channelId
        | [] => RoomLookupResult.failed "Room not found" none

/-- An HTTP outcome of `resolveRoomForAdmin`: either a resolved room or
a JSON error response with a status code and the optional candidate
list. -/
inductive AdminLookup where
  | ok (room : Room) (channelId : String)
  | failure (status : Nat) (error : String) (candidates : Option (List String))
deriving DecidableEq, Repr

/-- `resolveRoomForAdmin` (createApp.ts): empty room id is a 400; a
lookup error is a 409 when it carries candidates and a 404 otherwise. -/
def resolveRoomForAdmin (state : SfuState) (roomIdParam : Option String)
    (clientId : Option String) : AdminLookup :=
  let roomId := toStringOrEmpty roomIdParam
  if roomId = "" then AdminLookup.failure 400 "Room ID is required" none
  else
    match resolveRoom state roomId clientId with
    | RoomLookupResult.failed error (some candidates) =>
        AdminLookup.failure 409 error (some candidates)
    | RoomLookupResult.failed error none =>
        AdminLookup.failure 404 error none
    | RoomLookupResult.found room channelId => AdminLookup.ok room channelId

/-! ### Forced drain (`POST /drain`, createApp.ts) -/

/-- `parseRestartNoticeMs` (createApp.ts): a missing or non-finite
value falls back to the 4000 ms default; non-positive values disable
the sleep; the rest is clamped to 30000 ms. -/
def parseRestartNoticeMs (value : Option Int) : Int :=
  match value with
  | none => 4000
  | some v => if v ≤ 0 then 0 else min v 30000

/-- The pending-socket `Set` built while looping over the rooms during
a forced drain: socket insertion order with first-occurrence
deduplication. -/
def pendingSocketsOf (rooms : List Room) : List String :=
  rooms.foldl
    (fun acc room =>
      room.pendingClients.foldl
        (fun a p => if p.socketId ∈ a then a else a ++ [p.socketId]) acc)
    []

/-- The forced branch of the `/drain` route (createApp.ts,
`handleDrain`): broadcast `serverRestarting` to every room channel,
then to every pending socket, optionally sleep, then disconnect every
room channel and finally every pending socket. -/
def handleDrainForce (rooms : List Room) (noticeMs : Option Int) : List Emit :=
  let ms := parseRestartNoticeMs noticeMs
  let pend := pendingSocketsOf rooms
  rooms.map (fun r => Emit.toChannel r.channelId "serverRestarting")
    ++ pend.map (fun s => Emit.toSocket s "serverRestarting")
    ++ (if 0 < ms then [Emit.sleep ms] else [])
    ++ rooms.map (fun r => Emit.disconnectChannel r.channelId)
    ++ pend.map (fun s => Emit.disconnectSocket s)

/-! ### Transcript deduplication (`RoomTranscriber.appendTranscript`) -/

/-- A transcript chunk; `speaker` is optional as in the source. -/
structure TranscriptChunk where
  startMs : Int
  endMs : Int
  text : String
  speaker : Option String
deriving DecidableEq, Repr

/-- Splitting a character list at whitespace (the accumulator holds the
current run reversed). -/
def splitWsRuns : List Char → List Char → List (List Char)
  | [], cur => [cur.reverse]
  | c :: rest, cur =>
      if c.isWhitespace then cur.reverse :: splitWsRuns rest []
      else splitWsRuns rest (c :: cur)

/-- Joining words with single spaces. -/
def joinWords : List (List Char) → List Char
  | [] => []
  | [w] => w
  | w :: ws => w ++ ' ' :: joinWords ws

/-- `chunk.text.replace(/\s+/g, " ").trim()`: whitespace runs collapse
to single spaces and the ends are trimmed; equivalently, the maximal
non-whitespace runs joined by single spaces (structural implementation
so that concrete inputs evaluate). -/
def normalizeWs (s : String) : String :=
  String.mk (joinWords ((splitWsRuns s.toList []).filter (fun w => w ≠ [])))

/-- `last.speaker || ""`: a missing speaker compares as the empty
string. -/
def speakerKey (c : TranscriptChunk) : String :=
  c.speaker.getD ""

/-- `RoomTranscriber.appendTranscript`: empty normalized text is
dropped; a chunk equal in text and speaker to the last appended chunk
and within 1500 ms of its end is suppressed; anything else is appended
with the normalized text. -/
def appendTranscript (transcript : List TranscriptChunk) (chunk : TranscriptChunk) :
    List TranscriptChunk :=
  let text := normalizeWs chunk.text
  if text = "" then transcript
  else
    match transcript.getLast? with
    | some last =>
        if last.text = text ∧ (last.endMs - chunk.endMs).natAbs < 1500
            ∧ speakerKey last = speakerKey chunk then
          transcript
        else transcript ++ [{ chunk with text := text }]
    | none => transcript ++ [{ chunk with text := text }]

/-! ### Minutes single flight (`POST /minutes`, the earlier
`createSfuApp` variant) -/

/-- The state of the single-flight machinery of the `/minutes` route:
the in-flight registry keyed by channel id (values are generation
identifiers), the next fresh generation identifier, the number of
generator invocations, and which generation each request observed
(awaiting a generation promise yields that generation output bytes,
so two requests observing the same generation observe the same PDF
bytes). -/
structure MinutesState where
  registry : List (String × Nat)
  nextGen : Nat
  invocations : Nat
  observed : List (Nat × Nat)
deriving DecidableEq, Repr

/-- `minutesGenerationInFlight.get(channelId)`. -/
def registryGet (reg : List (String × Nat)) (ch : String) : Option Nat :=
  match reg.find? (fun e => e.1 = ch) with
  | some e => some e.2
  | none => none

/-- `minutesGenerationInFlight.delete(channelId)`. -/
def registryRemove (reg : List (String × Nat)) (ch : String) : List (String × Nat) :=
  reg.filter (fun e => e.1 ≠ ch)

/-- The registry interaction of one `/minutes` request (after the
cache check): join the in-flight generation when one exists,
otherwise start a fresh generation — one generator invocation — and
register it.  Node runs each such section atomically between awaits. -/
def minutesArrive (s : MinutesState) (ch : String) (reqId : Nat) : MinutesState :=
  match registryGet s.registry ch with
  | some g => { s with observed := s.observed ++ [(reqId, g)] }
  | none =>
      { registry := s.registry ++ [(ch, s.nextGen)]
        nextGen := s.nextGen + 1
        invocations := s.invocations + 1
        observed := s.observed ++ [(reqId, s.nextGen)] }

/-- The `finally` block of the `/minutes` route: when the registry
still maps the channel to this generation, the entry is removed; the
`ok` flag records whether the generation succeeded or failed and is
deliberately not inspected, as `finally` runs on both paths. -/
def minutesComplete (s : MinutesState) (ch : String) (g : Nat) (ok : Bool) :
    MinutesState :=
  if registryGet s.registry ch = some g then
    { s with registry := registryRemove s.registry ch }
  else s

/-! ### Auxiliary predicates and concrete sample inputs -/

/-- Whether a participant currently owns a producer with the given id. -/
def ownsProducer (c : Client) (producerId : String) : Bool :=
  c.producers.any (fun p => p.producerId = producerId)

/-- A `serverRestarting` notice, to a channel or to a pending socket. -/
def isRestartNotice : Emit → Bool
  | Emit.toSocket _ ev => ev = "serverRestarting"
  | Emit.toChannel _ ev => ev = "serverRestarting"
  | _ => false

/-- Any disconnection action. -/
def isDisconnectEmit : Emit → Bool
  | Emit.disconnectSocket _ => true
  | Emit.disconnectChannel _ => true
  | _ => false

/-- A room-channel disconnection. -/
def isChannelDisconnect : Emit → Bool
  | Emit.disconnectChannel _ => true
  | _ => false

/-- A pending-socket disconnection. -/
def isSocketDisconnect : Emit → Bool
  | Emit.disconnectSocket _ => true
  | _ => false

/-- The drain sleep action. -/
def isSleepEmit : Emit → Bool
  | Emit.sleep _ => true
  | _ => false

/-- An empty default-tenant room `r1`, used as the base of the concrete
sample inputs below. -/
def emptyRoom : Room :=
  { id := "r1"
    clientId := "default"
    channelId := "default:r1"
    clients := []
    userKeysById := []
    pendingClients := []
    allowedUsers := []
    lockedAllowedUsers := []
    blockedUsers := []
    isLocked := false
    isChatLocked := false
    noGuests := false
    isTtsDisabled := false
    isDmEnabled := false
    screenShareProducerId := none }

/-- A waiting-room entry for `alice@x.y`. -/
def alicePending : PendingEntry :=
  { userId := "alice@x.y#s1"
    userKey := "alice@x.y"
    displayName := "Alice"
    socketId := "sockA" }

/-- A non-admin participant owning one audio producer `p1`. -/
def bobClient : Client :=
  { id := "bob#s1"
    isAdmin := false
    isGhost := false
    isWebinarAttendee := false
    socketId := "sockB"
    producers := [{ producerId := "p1", kind := MediaKind.audio, ptype := ProducerType.webcam }] }

/-- An admin participant owning one audio producer `pH`. -/
def hostClient : Client :=
  { id := "host#s1"
    isAdmin := true
    isGhost := false
    isWebinarAttendee := false
    socketId := "sockH"
    producers := [{ producerId := "pH", kind := MediaKind.audio, ptype := ProducerType.webcam }] }

/-- A locked room whose only pending entry is `alice@x.y`. -/
def lockedPendingRoom : Room :=
  { emptyRoom with isLocked := true, pendingClients := [alicePending] }

/-- A room where `alice@x.y` is allowed and nobody is blocked. -/
def allowedAliceRoom : Room :=
  { emptyRoom with allowedUsers := ["alice@x.y"] }

/-- A locked room with pending `alice@x.y` who is also allowed. -/
def lockedAllowedPendingRoom : Room :=
  { emptyRoom with
      isLocked := true
      pendingClients := [alicePending]
      allowedUsers := ["alice@x.y"] }

/-- A room with one non-admin participant who owns producer `p1`. -/
def oneProducerRoom : Room :=
  { emptyRoom with clients := [bobClient] }

/-- A room with an admin and a non-admin participant, each owning one
audio producer. -/
def adminBobRoom : Room :=
  { emptyRoom with clients := [hostClient, bobClient] }

/-- Tenant `t1` owns a room `rX`. -/
def roomT1 : Room :=
  { emptyRoom with id := "rX", clientId := "t1", channelId := "t1:rX" }

/-- Tenant `t2` owns a room `rX` as well. -/
def roomT2 : Room :=
  { emptyRoom with id := "rX", clientId := "t2", channelId := "t2:rX" }

/-- A registry holding both `rX` rooms. -/
def twoTenantState : SfuState := ⟨[roomT1, roomT2]⟩

/-- A room with one pending entry, used for the drain sample. -/
def pendingOnlyRoom : Room :=
  { emptyRoom with pendingClients := [alicePending] }

/-- The initial minutes single-flight state. -/
def minutesInit : MinutesState := ⟨[], 0, 0, []⟩

/-- A finalized transcript chunk. -/
def chunkHello : TranscriptChunk :=
  { startMs := 0, endMs := 1000, text := "hello", speaker := none }

/-- A duplicate frame of `chunkHello` arriving 400 ms later with messy
whitespace. -/
def chunkHelloDup : TranscriptChunk :=
  { startMs := 1200, endMs := 1400, text := " hello ", speaker := none }

/-- A room where `alice@x.y` is blocked. -/
def blockedAliceRoom : Room :=
  { emptyRoom with blockedUsers := ["alice@x.y"] }

/-- The room carried by a successful admit response. -/
def admitResponseRoom : AdmitResponse → Option Room
  | AdmitResponse.ok room _ => some room
  | _ => none

/-- The emission trace of a successful admit response. -/
def admitResponseEmits : AdmitResponse → List Emit
  | AdmitResponse.ok _ emits => emits
  | _ => []

/-! ## Helper lemmas about the set primitives -/

theorem mem_addKey_self (l : List String) (k : String) : k ∈ addKey l k := by
  unfold addKey
  split
  · assumption
  · exact List.mem_append_right _ (List.mem_singleton.mpr rfl)

theorem mem_addKey_of_mem {l : List String} {a : String} (k : String) (h : a ∈ l) :
    a ∈ addKey l k := by
  unfold addKey
  split
  · exact h
  · exact List.mem_append_left _ h

theorem mem_removeKey {l : List String} {a k : String} :
    a ∈ removeKey l k ↔ a ∈ l ∧ a ≠ k := by
  simp [removeKey]

/-! ## Lemmas about the allow-users and block-users loops -/

theorem allowOneKey_allowedUsers (b : Bool) (st : Room × List String × List Emit)
    (k : String) : (allowOneKey b st k).1.allowedUsers = addKey st.1.allowedUsers k := by
  unfold allowOneKey
  cases hp : st.1.pendingGet k <;>
    dsimp only <;>
    split <;>
    (try simp [Room.allowLockedUser, Room.allowUser, Room.unblockUser]) <;>
    split <;> rfl

theorem allowOneKey_blockedUsers (b : Bool) (st : Room × List String × List Emit)
    (k : String) : (allowOneKey b st k).1.blockedUsers = removeKey st.1.blockedUsers k := by
  unfold allowOneKey
  cases hp : st.1.pendingGet k <;>
    dsimp only <;>
    split <;>
    (try simp [Room.allowLockedUser, Room.allowUser, Room.unblockUser]) <;>
    split <;> rfl

theorem allowLoop_preserves (b : Bool) (keys : List String) :
    ∀ (st : Room × List String × List Emit) (a : String),
      a ∈ st.1.allowedUsers → a ∉ st.1.blockedUsers →
      a ∈ (keys.foldl (allowOneKey b) st).1.allowedUsers ∧
      a ∉ (keys.foldl (allowOneKey b) st).1.blockedUsers := by
  induction keys with
  | nil => exact fun st a h1 h2 => ⟨h1, h2⟩
  | cons k rest ih =>
      intro st a h1 h2
      rw [List.foldl_cons]
      apply ih
      · rw [allowOneKey_allowedUsers]
        exact mem_addKey_of_mem _ h1
      · rw [allowOneKey_blockedUsers]
        intro hc
        exact h2 (mem_removeKey.mp hc).1

theorem allowLoop_mem (b : Bool) (keys : List String) :
    ∀ (st : Room × List String × List Emit) (k : String), k ∈ keys →
      k ∈ (keys.foldl (allowOneKey b) st).1.allowedUsers ∧
      k ∉ (keys.foldl (allowOneKey b) st).1.blockedUsers := by
  induction keys with
  | nil => intro st k h; cases h
  | cons k0 rest ih =>
      intro st k h
      rw [List.foldl_cons]
      rcases List.mem_cons.mp h with h | h
      · subst h
        apply allowLoop_preserves
        · rw [allowOneKey_allowedUsers]
          exact mem_addKey_self _ _
        · rw [allowOneKey_blockedUsers]
          intro hc
          exact (mem_removeKey.mp hc).2 rfl
      · exact ih _ _ h

theorem blockOneKey_allowedUsers (kick : Bool) (st : Room × List String × List Emit)
    (k : String) : (blockOneKey kick st k).1.allowedUsers = st.1.allowedUsers := by
  unfold blockOneKey
  dsimp only
  simp [Room.blockUser]

theorem blockOneKey_blockedUsers (kick : Bool) (st : Room × List String × List Emit)
    (k : String) : (blockOneKey kick st k).1.blockedUsers = addKey st.1.blockedUsers k := by
  unfold blockOneKey
  dsimp only
  simp [Room.blockUser]

theorem blockLoop_allowedUsers (kick : Bool) (keys : List String) :
    ∀ st : Room × List String × List Emit,
      (keys.foldl (blockOneKey kick) st).1.allowedUsers = st.1.allowedUsers := by
  induction keys with
  | nil => intro st; rfl
  | cons k rest ih =>
      intro st
      rw [List.foldl_cons, ih, blockOneKey_allowedUsers]

theorem blockLoop_blocked_mem (kick : Bool) (keys : List String) :
    ∀ (st : Room × List String × List Emit) (k : String),
      k ∈ keys ∨ k ∈ st.1.blockedUsers →
      k ∈ (keys.foldl (blockOneKey kick) st).1.blockedUsers := by
  induction keys with
  | nil =>
      intro st k h
      rcases h with h | h
      · cases h
      · exact h
  | cons k0 rest ih =>
      intro st k h
      rw [List.foldl_cons]
      rcases h with h | h
      · rcases List.mem_cons.mp h with h | h
        · subst h
          apply ih
          right
          rw [blockOneKey_blockedUsers]
          exact mem_addKey_self _ _
        · exact ih _ _ (Or.inl h)
      · apply ih
        right
        rw [blockOneKey_blockedUsers]
        exact mem_addKey_of_mem _ h

/-! ## Claim C10 -/

/-- Claim C10: for every userKey of a successful access-allow request
(HTTP `POST /admin/rooms/:roomId/access/allow` or the socket event
`admin:allowUsers`), the handler removes the key from
`blockedUserKeys` (the per-key loop body calls `unblockUser` before
`allowUser`), so after the operation the key is in `allowedUserKeys`
and not in `blockedUserKeys`. -/
theorem allowUsers_implicitly_unblocks (room : Room) (userKeys : List String)
    (allowWhenLocked : Bool) (k : String) (hk : k ∈ userKeys) :
    k ∈ (allowUsersLoop room userKeys allowWhenLocked).1.allowedUsers ∧
    k ∉ (allowUsersLoop room userKeys allowWhenLocked).1.blockedUsers := by
  unfold allowUsersLoop
  exact allowLoop_mem _ _ _ _ hk

/-- Witness for claim C10: allowing the previously blocked
`alice@x.y` lands her in the allow list and out of the block list. -/
theorem allowUsers_implicitly_unblocks_witness :
    ("alice@x.y" ∈ ["alice@x.y"]) ∧
    ("alice@x.y" ∈ (allowUsersLoop blockedAliceRoom ["alice@x.y"] true).1.allowedUsers ∧
      "alice@x.y" ∉ (allowUsersLoop blockedAliceRoom ["alice@x.y"] true).1.blockedUsers) :=
  ⟨by decide,
    allowUsers_implicitly_unblocks blockedAliceRoom ["alice@x.y"] true "alice@x.y" (by decide)⟩

/-! ## Claim C2 -/

/-- Counterexample for claim C2 as stated: blocking the allowed
`alice@x.y` (HTTP access/block loop or `admin:blockUsers`, an admin
mutation) leaves her in both `blockedUserKeys` and `allowedUserKeys`,
so their intersection is not empty. -/
theorem blocked_allowed_intersection_counterexample :
    "alice@x.y" ∈ (blockUsersLoop allowedAliceRoom ["alice@x.y"] false).1.blockedUsers ∧
    "alice@x.y" ∈ (blockUsersLoop allowedAliceRoom ["alice@x.y"] false).1.allowedUsers := by
  decide

/-- Claim C2 as amended: the access-allow mutations remove each touched
key from `blockedUserKeys` before allowing it, so after an allow the
touched keys are never blocked; but the block mutations leave
`allowedUserKeys` untouched while inserting the keys into
`blockedUserKeys`, so blocking a previously allowed key makes the two
lists intersect — the disjointness invariant holds only for the keys of
allow mutations, not after arbitrary admin mutations. -/
theorem blocked_allowed_after_mutations (room : Room) (userKeys : List String)
    (allowWhenLocked kickPresent : Bool) (k : String) (hk : k ∈ userKeys) :
    k ∉ (allowUsersLoop room userKeys allowWhenLocked).1.blockedUsers ∧
    (blockUsersLoop room userKeys kickPresent).1.allowedUsers = room.allowedUsers ∧
    k ∈ (blockUsersLoop room userKeys kickPresent).1.blockedUsers := by
  refine ⟨(allowLoop_mem allowWhenLocked userKeys _ k hk).2, ?_, ?_⟩
  · exact blockLoop_allowedUsers kickPresent userKeys _
  · exact blockLoop_blocked_mem kickPresent userKeys _ k (Or.inl hk)

/-- Witness for the amended claim C2. -/
theorem blocked_allowed_after_mutations_witness :
    ("alice@x.y" ∈ ["alice@x.y"]) ∧
    ("alice@x.y" ∉ (allowUsersLoop allowedAliceRoom ["alice@x.y"] true).1.blockedUsers ∧
      (blockUsersLoop allowedAliceRoom ["alice@x.y"] true).1.allowedUsers =
        allowedAliceRoom.allowedUsers ∧
      "alice@x.y" ∈ (blockUsersLoop allowedAliceRoom ["alice@x.y"] true).1.blockedUsers) :=
  ⟨by decide,
    blocked_allowed_after_mutations allowedAliceRoom ["alice@x.y"] true true "alice@x.y"
      (by decide)⟩

/-! ## Claim C1 -/

/-- Counterexample for claim C1 as stated: admitting the single pending
`alice@x.y` through the operator route succeeds and sends
`joinApproved`, yet the pending list of the resulting room still holds
her entry — the route never removes it, so the pending list is not
empty. -/
theorem admitPendingUser_counterexample :
    (admitResponseRoom (admitPendingUserRoute lockedPendingRoom (some "alice@x.y"))).map
        (fun r => r.pendingClients) = some [alicePending] ∧
    Emit.toSocket "sockA" "joinApproved" ∈
      admitResponseEmits (admitPendingUserRoute lockedPendingRoom (some "alice@x.y")) := by
  decide

/-- Claim C1 as amended: a successful
`POST /admin/rooms/:roomId/pending/:userKey/admit` sends `joinApproved`
to the pending socket and records the key in `allowedUserKeys` (and in
`lockedAllowedUserKeys` when the room is locked), but it does not
remove the pending entry: the pending list is unchanged, and the entry
disappears only later, when the approved user re-joins. -/
theorem admitPendingUser_effects (room : Room) (userKey : String) (pending : PendingEntry)
    (hkey : toStringOrEmpty (some userKey) = userKey) (hne : userKey ≠ "")
    (hp : room.pendingGet userKey = some pending) :
    ∃ room2 emits,
      admitPendingUserRoute room (some userKey) = AdmitResponse.ok room2 emits ∧
      Emit.toSocket pending.socketId "joinApproved" ∈ emits ∧
      userKey ∈ room2.allowedUsers ∧
      (room.isLocked = true → userKey ∈ room2.lockedAllowedUsers) ∧
      room2.pendingClients = room.pendingClients := by
  unfold admitPendingUserRoute
  rw [hkey, if_neg hne, hp]
  cases hiL : room.isLocked
  · refine ⟨_, _, rfl, ?_, ?_, ?_, ?_⟩
    · simp [hiL]
    · simp [hiL, Room.allowUser, mem_addKey_self]
    · intro h
      exact Bool.noConfusion h
    · simp [hiL, Room.allowUser]
  · refine ⟨_, _, rfl, ?_, ?_, ?_, ?_⟩
    · simp [hiL]
    · simp [hiL, Room.allowUser, mem_addKey_self]
    · intro _
      simp [hiL, Room.allowUser, Room.allowLockedUser, mem_addKey_self]
    · simp [hiL, Room.allowUser, Room.allowLockedUser]

/-- Witness for the amended claim C1. -/
theorem admitPendingUser_effects_witness :
    (toStringOrEmpty (some "alice@x.y") = "alice@x.y") ∧ ("alice@x.y" ≠ "") ∧
    (lockedPendingRoom.pendingGet "alice@x.y" = some alicePending) ∧
    (∃ room2 emits,
      admitPendingUserRoute lockedPendingRoom (some "alice@x.y") =
        AdmitResponse.ok room2 emits ∧
      Emit.toSocket alicePending.socketId "joinApproved" ∈ emits ∧
      "alice@x.y" ∈ room2.allowedUsers ∧
      (lockedPendingRoom.isLocked = true → "alice@x.y" ∈ room2.lockedAllowedUsers) ∧
      room2.pendingClients = lockedPendingRoom.pendingClients) :=
  ⟨by decide, by decide, by decide,
    admitPendingUser_effects lockedPendingRoom "alice@x.y" alicePending
      (by decide) (by decide) (by decide)⟩

/-! ## Claim C3 -/

theorem foldAllowLocked_pendingClients (l : List (String × String)) :
    ∀ r : Room,
      (l.foldl (fun r kv => Room.allowLockedUser r kv.2) r).pendingClients =
        r.pendingClients := by
  induction l with
  | nil => intro r; rfl
  | cons kv rest ih =>
      intro r
      rw [List.foldl_cons, ih]
      rfl

theorem lockedStep_props (u : RoomPolicyUpdate) (s : PolicyStep) :
    (lockedStep u s).room.pendingClients = s.room.pendingClients ∧
    ∀ e ∈ (lockedStep u s).emits, e ∈ s.emits ∨ ∃ ch ev, e = Emit.toChannel ch ev := by
  unfold lockedStep
  cases u.locked <;> dsimp only
  · exact ⟨rfl, fun e he => Or.inl he⟩
  · split
    · constructor
      · split
        · rw [foldAllowLocked_pendingClients]
          rfl
        · rfl
      · intro e he
        rcases List.mem_append.mp he with h | h
        · exact Or.inl h
        · exact Or.inr ⟨_, _, List.mem_singleton.mp h⟩
    · exact ⟨rfl, fun e he => Or.inl he⟩

theorem chatLockedStep_props (u : RoomPolicyUpdate) (s : PolicyStep) :
    (chatLockedStep u s).room.pendingClients = s.room.pendingClients ∧
    (chatLockedStep u s).room.isLocked = s.room.isLocked ∧
    ∀ e ∈ (chatLockedStep u s).emits, e ∈ s.emits ∨ ∃ ch ev, e = Emit.toChannel ch ev := by
  unfold chatLockedStep
  cases u.chatLocked <;> dsimp only
  · exact ⟨rfl, rfl, fun e he => Or.inl he⟩
  · split
    · refine ⟨rfl, rfl, ?_⟩
      intro e he
      rcases List.mem_append.mp he with h | h
      · exact Or.inl h
      · exact Or.inr ⟨_, _, List.mem_singleton.mp h⟩
    · exact ⟨rfl, rfl, fun e he => Or.inl he⟩

theorem noGuestsStep_props (u : RoomPolicyUpdate) (s : PolicyStep) :
    (noGuestsStep u s).room.pendingClients = s.room.pendingClients ∧
    (noGuestsStep u s).room.isLocked = s.room.isLocked ∧
    ∀ e ∈ (noGuestsStep u s).emits, e ∈ s.emits ∨ ∃ ch ev, e = Emit.toChannel ch ev := by
  unfold noGuestsStep
  cases u.noGuests <;> dsimp only
  · exact ⟨rfl, rfl, fun e he => Or.inl he⟩
  · split
    · refine ⟨rfl, rfl, ?_⟩
      intro e he
      rcases List.mem_append.mp he with h | h
      · exact Or.inl h
      · exact Or.inr ⟨_, _, List.mem_singleton.mp h⟩
    · exact ⟨rfl, rfl, fun e he => Or.inl he⟩

theorem ttsDisabledStep_props (u : RoomPolicyUpdate) (s : PolicyStep) :
    (ttsDisabledStep u s).room.pendingClients = s.room.pendingClients ∧
    (ttsDisabledStep u s).room.isLocked = s.room.isLocked ∧
    ∀ e ∈ (ttsDisabledStep u s).emits, e ∈ s.emits ∨ ∃ ch ev, e = Emit.toChannel ch ev := by
  unfold ttsDisabledStep
  cases u.ttsDisabled <;> dsimp only
  · exact ⟨rfl, rfl, fun e he => Or.inl he⟩
  · split
    · refine ⟨rfl, rfl, ?_⟩
      intro e he
      rcases List.mem_append.mp he with h | h
      · exact Or.inl h
      · exact Or.inr ⟨_, _, List.mem_singleton.mp h⟩
    · exact ⟨rfl, rfl, fun e he => Or.inl he⟩

theorem dmEnabledStep_props (u : RoomPolicyUpdate) (s : PolicyStep) :
    (dmEnabledStep u s).room.pendingClients = s.room.pendingClients ∧
    (dmEnabledStep u s).room.isLocked = s.room.isLocked ∧
    ∀ e ∈ (dmEnabledStep u s).emits, e ∈ s.emits ∨ ∃ ch ev, e = Emit.toChannel ch ev := by
  unfold dmEnabledStep
  cases u.dmEnabled <;> dsimp only
  · exact ⟨rfl, rfl, fun e he => Or.inl he⟩
  · split
    · refine ⟨rfl, rfl, ?_⟩
      intro e he
      rcases List.mem_append.mp he with h | h
      · exact Or.inl h
      · exact Or.inr ⟨_, _, List.mem_singleton.mp h⟩
    · exact ⟨rfl, rfl, fun e he => Or.inl he⟩

theorem lockedStep_unlocks (u : RoomPolicyUpdate) (s : PolicyStep)
    (hu : u.locked = some false) (hl : s.room.isLocked = true) :
    (lockedStep u s).room.isLocked = false := by
  unfold lockedStep
  rw [hu]
  dsimp only
  rw [if_pos (by simp [hl])]
  simp [Room.setLocked]

/-- Counterexample for claim C3 as stated: unlocking a room whose only
pending entry `alice@x.y` is in `allowedUserKeys` leaves the pending
entry in place and sends no `joinApproved`; nobody is auto-admitted. -/
theorem unlock_autoadmit_counterexample :
    (applyRoomPolicyUpdate lockedAllowedPendingRoom
        ⟨some false, none, none, none, none⟩).room.pendingClients = [alicePending] ∧
    "alice@x.y" ∈ lockedAllowedPendingRoom.allowedUsers ∧
    ∀ e ∈ (applyRoomPolicyUpdate lockedAllowedPendingRoom
        ⟨some false, none, none, none, none⟩).emits,
      e ≠ Emit.toSocket "sockA" "joinApproved" := by
  decide

/-- Claim C3 as amended: a policy update that transitions `locked` from
true to false only clears the flag and broadcasts channel events; no
pending entry is auto-admitted — the pending list is unchanged (whether
or not a pending key is in `allowedUserKeys`) and no per-socket event
(in particular no `joinApproved`) is emitted. -/
theorem unlock_autoadmits_nobody (room : Room) (update : RoomPolicyUpdate)
    (hu : update.locked = some false) (hl : room.isLocked = true) :
    (applyRoomPolicyUpdate room update).room.pendingClients = room.pendingClients ∧
    (applyRoomPolicyUpdate room update).room.isLocked = false ∧
    ∀ sid ev, Emit.toSocket sid ev ∉ (applyRoomPolicyUpdate room update).emits := by
  unfold applyRoomPolicyUpdate
  refine ⟨?_, ?_, ?_⟩
  · rw [(dmEnabledStep_props _ _).1, (ttsDisabledStep_props _ _).1,
      (noGuestsStep_props _ _).1, (chatLockedStep_props _ _).1,
      (lockedStep_props _ _).1]
  · rw [(dmEnabledStep_props _ _).2.1, (ttsDisabledStep_props _ _).2.1,
      (noGuestsStep_props _ _).2.1, (chatLockedStep_props _ _).2.1]
    exact lockedStep_unlocks update _ hu hl
  · intro sid ev hmem
    rcases (dmEnabledStep_props _ _).2.2 _ hmem with h | ⟨_, _, hEq⟩
    · rcases (ttsDisabledStep_props _ _).2.2 _ h with h | ⟨_, _, hEq⟩
      · rcases (noGuestsStep_props _ _).2.2 _ h with h | ⟨_, _, hEq⟩
        · rcases (chatLockedStep_props _ _).2.2 _ h with h | ⟨_, _, hEq⟩
          · rcases (lockedStep_props _ _).2 _ h with h | ⟨_, _, hEq⟩
            · simp at h
            · exact Emit.noConfusion hEq
          · exact Emit.noConfusion hEq
        · exact Emit.noConfusion hEq
      · exact Emit.noConfusion hEq
    · exact Emit.noConfusion hEq

/-- Witness for the amended claim C3. -/
theorem unlock_autoadmits_nobody_witness :
    ((⟨some false, none, none, none, none⟩ : RoomPolicyUpdate).locked = some false) ∧
    (lockedAllowedPendingRoom.isLocked = true) ∧
    ((applyRoomPolicyUpdate lockedAllowedPendingRoom
        ⟨some false, none, none, none, none⟩).room.pendingClients =
      lockedAllowedPendingRoom.pendingClients ∧
    (applyRoomPolicyUpdate lockedAllowedPendingRoom
        ⟨some false, none, none, none, none⟩).room.isLocked = false ∧
    ∀ sid ev, Emit.toSocket sid ev ∉
      (applyRoomPolicyUpdate lockedAllowedPendingRoom
        ⟨some false, none, none, none, none⟩).emits) :=
  ⟨rfl, rfl,
    unlock_autoadmits_nobody lockedAllowedPendingRoom
      ⟨some false, none, none, none, none⟩ rfl rfl⟩

/-! ## Claim C7 -/

/-- Claim C7: for every incoming chunk with non-empty
whitespace-normalized text arriving on a non-empty transcript, the
append is suppressed if and only if the normalized text equals the last
appended chunk, the end timestamps differ by less than 1500 ms and the
speakers match; otherwise the chunk is appended (with normalized
text). -/
theorem appendTranscript_dedup (t : List TranscriptChunk) (chunk last : TranscriptChunk)
    (hne : normalizeWs chunk.text ≠ "") (hlast : t.getLast? = some last) :
    (appendTranscript t chunk = t ↔
      (last.text = normalizeWs chunk.text ∧
        (last.endMs - chunk.endMs).natAbs < 1500 ∧
        speakerKey last = speakerKey chunk)) ∧
    (¬(last.text = normalizeWs chunk.text ∧
        (last.endMs - chunk.endMs).natAbs < 1500 ∧
        speakerKey last = speakerKey chunk) →
      appendTranscript t chunk = t ++ [{ chunk with text := normalizeWs chunk.text }]) := by
  unfold appendTranscript
  dsimp only
  rw [if_neg hne, hlast]
  dsimp only
  by_cases hc : last.text = normalizeWs chunk.text ∧
      (last.endMs - chunk.endMs).natAbs < 1500 ∧ speakerKey last = speakerKey chunk
  · rw [if_pos hc]
    exact ⟨⟨fun _ => hc, fun _ => rfl⟩, fun hn => absurd hc hn⟩
  · rw [if_neg hc]
    refine ⟨⟨?_, fun h => absurd h hc⟩, fun _ => rfl⟩
    intro hEq
    exfalso
    have hlen := congrArg List.length hEq
    simp at hlen

/-- Witness for claim C7: the duplicate `hello` frame 400 ms later is
suppressed. -/
theorem appendTranscript_dedup_witness :
    (normalizeWs chunkHelloDup.text ≠ "") ∧
    ([chunkHello].getLast? = some chunkHello) ∧
    ((appendTranscript [chunkHello] chunkHelloDup = [chunkHello] ↔
      (chunkHello.text = normalizeWs chunkHelloDup.text ∧
        (chunkHello.endMs - chunkHelloDup.endMs).natAbs < 1500 ∧
        speakerKey chunkHello = speakerKey chunkHelloDup)) ∧
    (¬(chunkHello.text = normalizeWs chunkHelloDup.text ∧
        (chunkHello.endMs - chunkHelloDup.endMs).natAbs < 1500 ∧
        speakerKey chunkHello = speakerKey chunkHelloDup) →
      appendTranscript [chunkHello] chunkHelloDup =
        [chunkHello] ++ [{ chunkHelloDup with text := normalizeWs chunkHelloDup.text }])) :=
  ⟨by decide, by decide,
    appendTranscript_dedup [chunkHello] chunkHelloDup chunkHello (by decide) (by decide)⟩

/-! ## Claim C8 -/

theorem resolveRoom_ambiguous (state : SfuState) (roomId : String)
    (h0 : jsTrim roomId = roomId) (hne : roomId ≠ "")
    (hlen : 1 < (state.rooms.filter (fun r => r.id = roomId)).length) :
    resolveRoom state roomId none =
      RoomLookupResult.failed "Room ID is ambiguous. Provide a clientId."
        (some ((state.rooms.filter (fun r => r.id = roomId)).map
          (fun r => r.channelId))) := by
  unfold resolveRoom
  dsimp only
  rw [h0, if_neg hne]
  rw [if_neg (fun h => h rfl)]
  have h1 : ¬((state.rooms.filter (fun r => r.id = roomId)).length = 0) := by omega
  rw [if_neg h1, if_pos hlen]

theorem resolveRoom_with_clientId (state : SfuState) (roomId clientId : String)
    (h0 : jsTrim roomId = roomId) (hne : roomId ≠ "")
    (hc0 : jsTrim clientId = clientId) (hcne : clientId ≠ "") :
    resolveRoom state roomId (some clientId) =
      (match state.getRoom (getRoomChannelId clientId roomId) with
       | some room => RoomLookupResult.found room (getRoomChannelId clientId roomId)
       | none => RoomLookupResult.failed "Room not found" none) := by
  unfold resolveRoom
  dsimp only
  rw [h0, if_neg hne]
  simp only [Option.map_some', Option.getD_some]
  rw [hc0, if_pos hcne]
  cases state.getRoom (getRoomChannelId clientId roomId) <;> rfl

/-- Claim C8: with no clientId and more than one tenant owning a room
with the requested id, the admin surface answers 409 with the error
string and the complete candidate channel-id list; with a concrete
clientId it resolves exactly that tenant room, or answers 404 when the
tenant has no such room. -/
theorem resolveRoomForAdmin_ambiguity (state : SfuState) (roomId clientId : String)
    (h0 : jsTrim roomId = roomId) (hne : roomId ≠ "")
    (hc0 : jsTrim clientId = clientId) (hcne : clientId ≠ "") :
    (1 < (state.rooms.filter (fun r => r.id = roomId)).length →
      resolveRoomForAdmin state (some roomId) none =
        AdminLookup.failure 409 "Room ID is ambiguous. Provide a clientId."
          (some ((state.rooms.filter (fun r => r.id = roomId)).map
            (fun r => r.channelId)))) ∧
    (∀ room, state.getRoom (getRoomChannelId clientId roomId) = some room →
      resolveRoomForAdmin state (some roomId) (some clientId) =
        AdminLookup.ok room (getRoomChannelId clientId roomId)) ∧
    (state.getRoom (getRoomChannelId clientId roomId) = none →
      resolveRoomForAdmin state (some roomId) (some clientId) =
        AdminLookup.failure 404 "Room not found" none) := by
  refine ⟨?_, ?_, ?_⟩
  · intro hlen
    unfold resolveRoomForAdmin toStringOrEmpty
    dsimp only
    rw [h0, if_neg hne, resolveRoom_ambiguous state roomId h0 hne hlen]
  · intro room hG
    unfold resolveRoomForAdmin toStringOrEmpty
    dsimp only
    rw [h0, if_neg hne, resolveRoom_with_clientId state roomId clientId h0 hne hc0 hcne, hG]
  · intro hG
    unfold resolveRoomForAdmin toStringOrEmpty
    dsimp only
    rw [h0, if_neg hne, resolveRoom_with_clientId state roomId clientId h0 hne hc0 hcne, hG]

/-- Witness for claim C8: two tenants own `rX`; without clientId the
surface answers 409 with both candidates; with `t1` it resolves the
`t1` room. -/
theorem resolveRoomForAdmin_ambiguity_witness :
    (jsTrim "rX" = "rX") ∧ ("rX" ≠ "") ∧
    (1 < (twoTenantState.rooms.filter (fun r => r.id = "rX")).length) ∧
    (resolveRoomForAdmin twoTenantState (some "rX") none =
      AdminLookup.failure 409 "Room ID is ambiguous. Provide a clientId."
        (some ["t1:rX", "t2:rX"])) ∧
    (resolveRoomForAdmin twoTenantState (some "rX") (some "t1") =
      AdminLookup.ok roomT1 "t1:rX") :=
  ⟨by decide, by decide, by decide,
    ((resolveRoomForAdmin_ambiguity twoTenantState "rX" "t1" (by decide) (by decide)
        (by decide) (by decide)).1 (by decide)).trans (by decide),
    (resolveRoomForAdmin_ambiguity twoTenantState "rX" "t1" (by decide) (by decide)
        (by decide) (by decide)).2.1 roomT1 (by decide)⟩

/-! ## Claim C4 -/

theorem registryGet_append_self (reg : List (String × Nat)) (ch : String) (g : Nat)
    (h : registryGet reg ch = none) : registryGet (reg ++ [(ch, g)]) ch = some g := by
  unfold registryGet at *
  induction reg with
  | nil => simp
  | cons e rest ih =>
      by_cases he : e.1 = ch
      · rw [List.find?_cons_of_pos _ (by simp [he])] at h
        cases h
      · rw [List.find?_cons_of_neg _ (by simp [he])] at h
        rw [List.cons_append, List.find?_cons_of_neg _ (by simp [he])]
        exact ih h

theorem registryGet_remove (reg : List (String × Nat)) (ch : String) :
    registryGet (registryRemove reg ch) ch = none := by
  unfold registryGet registryRemove
  induction reg with
  | nil => simp
  | cons e rest ih =>
      by_cases he : e.1 = ch
      · simpa [he] using ih
      · simpa [he] using ih

theorem minutesJoin_fold (ch : String) (g : Nat) (reqs : List Nat) :
    ∀ s : MinutesState, registryGet s.registry ch = some g →
      (reqs.foldl (fun t r => minutesArrive t ch r) s).registry = s.registry ∧
      (reqs.foldl (fun t r => minutesArrive t ch r) s).invocations = s.invocations ∧
      (∀ r ∈ reqs, (r, g) ∈ (reqs.foldl (fun t r => minutesArrive t ch r) s).observed) ∧
      (∀ o ∈ s.observed, o ∈ (reqs.foldl (fun t r => minutesArrive t ch r) s).observed) := by
  induction reqs with
  | nil => exact fun s h => ⟨rfl, rfl, fun r hr => absurd hr (List.not_mem_nil r), fun o ho => ho⟩
  | cons r0 rest ih =>
      intro s h
      rw [List.foldl_cons]
      have hstep : minutesArrive s ch r0 = { s with observed := s.observed ++ [(r0, g)] } := by
        unfold minutesArrive
        rw [h]
      have hreg : registryGet (minutesArrive s ch r0).registry ch = some g := by
        rw [hstep]
        exact h
      obtain ⟨h1, h2, h3, h4⟩ := ih (minutesArrive s ch r0) hreg
      refine ⟨by rw [h1, hstep], by rw [h2, hstep], ?_, ?_⟩
      · intro r hr
        rcases List.mem_cons.mp hr with hr | hr
        · subst hr
          apply h4
          rw [hstep]
          exact List.mem_append_right _ (List.mem_singleton.mpr rfl)
        · exact h3 r hr
      · intro o ho
        apply h4
        rw [hstep]
        exact List.mem_append_left _ ho

/-- Claim C4: requests for a channel that arrive while no generation is
in flight start exactly one generator invocation; every request that
arrives during the flight joins the same generation (hence observes the
same PDF bytes); and the completion handler — which runs whether the
generation succeeded or failed — removes the in-flight registry entry
for the channel. -/
theorem minutes_single_flight (s : MinutesState) (ch : String) (reqs : List Nat)
    (ok : Bool) (h : registryGet s.registry ch = none) (hne : reqs ≠ []) :
    (reqs.foldl (fun t r => minutesArrive t ch r) s).invocations = s.invocations + 1 ∧
    (∀ r ∈ reqs, (r, s.nextGen) ∈ (reqs.foldl (fun t r => minutesArrive t ch r) s).observed) ∧
    registryGet (minutesComplete (reqs.foldl (fun t r => minutesArrive t ch r) s)
        ch s.nextGen ok).registry ch = none := by
  cases reqs with
  | nil => exact absurd rfl hne
  | cons r0 rest =>
      rw [List.foldl_cons]
      have hstep : minutesArrive s ch r0 =
          { registry := s.registry ++ [(ch, s.nextGen)]
            nextGen := s.nextGen + 1
            invocations := s.invocations + 1
            observed := s.observed ++ [(r0, s.nextGen)] } := by
        unfold minutesArrive
        rw [h]
      have hreg : registryGet (minutesArrive s ch r0).registry ch = some s.nextGen := by
        rw [hstep]
        exact registryGet_append_self _ _ _ h
      obtain ⟨h1, h2, h3, h4⟩ := minutesJoin_fold ch s.nextGen rest _ hreg
      refine ⟨by rw [h2, hstep], ?_, ?_⟩
      · intro r hr
        rcases List.mem_cons.mp hr with hr | hr
        · subst hr
          apply h4
          rw [hstep]
          exact List.mem_append_right _ (List.mem_singleton.mpr rfl)
        · exact h3 r hr
      · unfold minutesComplete
        rw [h1, hreg, if_pos rfl]
        exact registryGet_remove _ _

/-- Witness for claim C4: two concurrent requests against an empty
registry invoke the generator once, both observe generation 0, and the
entry is gone after completion. -/
theorem minutes_single_flight_witness :
    (registryGet minutesInit.registry "default:r1" = none) ∧ (([7, 8] : List Nat) ≠ []) ∧
    (([7, 8].foldl (fun t r => minutesArrive t "default:r1" r) minutesInit).invocations =
        minutesInit.invocations + 1 ∧
      (∀ r ∈ ([7, 8] : List Nat), (r, minutesInit.nextGen) ∈
        ([7, 8].foldl (fun t r => minutesArrive t "default:r1" r) minutesInit).observed) ∧
      registryGet (minutesComplete
          ([7, 8].foldl (fun t r => minutesArrive t "default:r1" r) minutesInit)
          "default:r1" minutesInit.nextGen false).registry "default:r1" = none) :=
  ⟨by decide, by decide,
    minutes_single_flight minutesInit "default:r1" [7, 8] false (by decide) (by decide)⟩

/-! ## Claim C6 -/

theorem removeProducerById_eq_some {c : Client} {pid : String} {p : ProducerRef}
    {c2 : Client} (h : c.removeProducerById pid = some (p, c2)) :
    c2.id = c.id ∧ ownsProducer c pid = true ∧ ownsProducer c2 pid = false := by
  unfold Client.removeProducerById at h
  cases hF : c.producers.find? (fun q => q.producerId = pid) with
  | none =>
      rw [hF] at h
      cases h
  | some q =>
      rw [hF] at h
      injection h with hpair
      injection hpair with h1 h2
      subst h2
      refine ⟨rfl, ?_, ?_⟩
      · have hm := List.mem_of_find?_eq_some hF
        have hp := List.find?_some hF
        unfold ownsProducer
        rw [List.any_eq_true]
        exact ⟨q, hm, hp⟩
      · simp [ownsProducer, List.any_eq_true, List.mem_filter]

theorem removeProducerById_eq_none {c : Client} {pid : String}
    (h : ownsProducer c pid = false) : c.removeProducerById pid = none := by
  unfold Client.removeProducerById
  cases hF : c.producers.find? (fun q => q.producerId = pid) with
  | none => rfl
  | some q =>
      exfalso
      have hm := List.mem_of_find?_eq_some hF
      have hp := List.find?_some hF
      have hq : ownsProducer c pid = true := by
        unfold ownsProducer
        rw [List.any_eq_true]
        exact ⟨q, hm, hp⟩
      rw [h] at hq
      cases hq

theorem findProducerOwner_none_of (pid : String) :
    ∀ l : List Client, (∀ c ∈ l, ownsProducer c pid = false) →
      findProducerOwner pid l = none := by
  intro l
  induction l with
  | nil => intro _; rfl
  | cons c rest ih =>
      intro h
      unfold findProducerOwner
      rw [removeProducerById_eq_none (h c (List.mem_cons_self c rest))]
      exact ih (fun d hd => h d (List.mem_cons_of_mem c hd))

theorem findProducerOwner_some_mem {pid : String} :
    ∀ {l : List Client} {c : Client} {p : ProducerRef} {c2 : Client},
      findProducerOwner pid l = some (c, p, c2) →
      c ∈ l ∧ c.removeProducerById pid = some (p, c2) := by
  intro l
  induction l with
  | nil => intro c p c2 h; cases h
  | cons d rest ih =>
      intro c p c2 h
      unfold findProducerOwner at h
      cases hR : d.removeProducerById pid with
      | some t =>
          obtain ⟨p0, d2⟩ := t
          rw [hR] at h
          injection h with hpair
          injection hpair with h1 h2
          subst h1
          injection h2 with h3 h4
          subst h3
          subst h4
          exact ⟨List.mem_cons_self _ _, hR⟩
      | none =>
          rw [hR] at h
          have hrec := ih h
          exact ⟨List.mem_cons_of_mem _ hrec.1, hrec.2⟩

theorem clearScreenShareProducer_clients (r : Room) (pid : String) :
    (r.clearScreenShareProducer pid).clients = r.clients := by
  unfold Room.clearScreenShareProducer
  split <;> rfl

/-- Claim C6: `closeProducerById` is idempotent.  Assuming producer ids
occur in at most one participant (they are generated media-plane
unique ids), a second call after a successful close reports
`closed = false`, mutates no room or participant state (the room value
is returned untouched), and emits nothing — in particular no
`producerClosed`, `admin:producerClosed` or `admin:mediaEnforced`. -/
theorem closeProducerById_idempotent (room : Room) (pid : String)
    (res : CloseResult) (room2 : Room) (ev : List Emit)
    (huniq : ∀ c1 ∈ room.clients, ∀ c2 ∈ room.clients,
      ownsProducer c1 pid = true → ownsProducer c2 pid = true → c1 = c2)
    (heq : closeProducerById room pid = (res, room2, ev))
    (hclosed : res.closed = true) :
    closeProducerById room2 pid = (⟨false, none, none, none⟩, room2, []) := by
  unfold closeProducerById at heq
  cases hF : findProducerOwner pid room.clients with
  | none =>
      rw [hF] at heq
      injection heq with h1 h2
      rw [← h1] at hclosed
      cases hclosed
  | some t =>
      obtain ⟨c, rem, c2⟩ := t
      rw [hF] at heq
      injection heq with h1 h2
      injection h2 with h2 h3
      obtain ⟨hmem, hrem⟩ := findProducerOwner_some_mem hF
      obtain ⟨hid, howns, hnot⟩ := removeProducerById_eq_some hrem
      have hclients : room2.clients =
          room.clients.map (fun d => if d.id = c2.id then c2 else d) := by
        rw [← h2]
        split
        · rw [clearScreenShareProducer_clients]
          rfl
        · rfl
      have hno : ∀ d ∈ room2.clients, ownsProducer d pid = false := by
        rw [hclients]
        intro d hd
        rcases List.mem_map.mp hd with ⟨d0, hd0, rfl⟩
        by_cases hidd : d0.id = c2.id
        · rw [if_pos hidd]
          exact hnot
        · rw [if_neg hidd]
          cases hB : ownsProducer d0 pid with
          | false => rfl
          | true =>
              exfalso
              have hde : d0 = c := huniq d0 hd0 c hmem hB howns
              rw [hde, ← hid] at hidd
              exact hidd rfl
      unfold closeProducerById
      rw [findProducerOwner_none_of pid room2.clients hno]

/-- Witness for claim C6: after closing `p1` in the one-producer room,
a second close of `p1` is a no-op. -/
theorem closeProducerById_idempotent_witness :
    (∀ c1 ∈ oneProducerRoom.clients, ∀ c2 ∈ oneProducerRoom.clients,
      ownsProducer c1 "p1" = true → ownsProducer c2 "p1" = true → c1 = c2) ∧
    ((closeProducerById oneProducerRoom "p1").1.closed = true) ∧
    (closeProducerById (closeProducerById oneProducerRoom "p1").2.1 "p1" =
      (⟨false, none, none, none⟩, (closeProducerById oneProducerRoom "p1").2.1, [])) :=
  ⟨by decide, by decide,
    closeProducerById_idempotent oneProducerRoom "p1" _ _ _ (by decide) rfl (by decide)⟩

/-! ## Claim C9 -/

theorem getClient_id {room : Room} {uid : String} {t : Client}
    (h : room.getClient uid = some t) : t.id = uid := by
  unfold Room.getClient at h
  have := List.find?_some h
  simpa using this

theorem updateClient_mem_of_ne {room : Room} {t2 : Client} {a : Client}
    (ha : a ∈ room.clients) (hne : a.id ≠ t2.id) :
    a ∈ (room.updateClient t2).clients := by
  unfold Room.updateClient
  exact List.mem_map.mpr ⟨a, ha, by rw [if_neg hne]⟩

theorem closeProducersLoop_preserves (targetId : String) (infos : List ProducerRef) :
    ∀ (room : Room) (cAcc : List ProducerRef) (eAcc : List Emit) (a : Client),
      a ∈ room.clients → a.id ≠ targetId →
      a ∈ (closeProducersLoop targetId infos room cAcc eAcc).room.clients := by
  induction infos with
  | nil => exact fun room cAcc eAcc a ha _ => ha
  | cons info rest ih =>
      intro room cAcc eAcc a ha hne
      unfold closeProducersLoop
      cases hG : room.getClient targetId with
      | none =>
          dsimp only
          exact ih room cAcc eAcc a ha hne
      | some t =>
          dsimp only
          cases hR : t.removeProducerById info.producerId with
          | none =>
              dsimp only
              exact ih room cAcc eAcc a ha hne
          | some pr =>
              obtain ⟨rem, t2⟩ := pr
              have ht2id : t2.id = targetId := by
                rw [(removeProducerById_eq_some hR).1, getClient_id hG]
              dsimp only
              apply ih
              · split
                · rw [clearScreenShareProducer_clients]
                  exact updateClient_mem_of_ne ha (by rw [ht2id]; exact hne)
                · exact updateClient_mem_of_ne ha (by rw [ht2id]; exact hne)
              · exact hne

theorem closeClientProducers_preserves {room : Room} {uid : String} {selector : Selector}
    {a : Client} (ha : a ∈ room.clients) (hne : a.id ≠ uid) :
    a ∈ (closeClientProducers room uid selector).room.clients := by
  unfold closeClientProducers
  cases hG : room.getClient uid with
  | none => exact ha
  | some target =>
      dsimp only
      split
      · exact closeProducersLoop_preserves uid _ room [] [] a ha hne
      · exact closeProducersLoop_preserves uid _ room [] [] a ha hne

theorem bulkStep_preserves (selector : Selector) (iG iAt : Bool) (c : Client)
    (acc : BulkResult) (a : Client) (ha : a ∈ acc.room.clients)
    (hcase : a.id ≠ c.id ∨ c.isAdmin = true) :
    a ∈ (bulkStep selector false iG iAt acc c).room.clients := by
  unfold bulkStep
  cases hAd : c.isAdmin with
  | true =>
      rw [if_pos ⟨fun h => Bool.noConfusion h, rfl⟩]
      exact ha
  | false =>
      rw [if_neg (fun hcon => Bool.noConfusion hcon.2)]
      have hneid : a.id ≠ c.id := by
        rcases hcase with h | h
        · exact h
        · rw [hAd] at h
          exact Bool.noConfusion h
      split
      · exact ha
      · split
        · exact ha
        · dsimp only
          split
          · exact closeClientProducers_preserves ha hneid
          · exact closeClientProducers_preserves ha hneid

theorem bulkFold_preserves (selector : Selector) (iG iAt : Bool) :
    ∀ (cs : List Client) (acc : BulkResult) (a : Client),
      a ∈ acc.room.clients → (∀ c ∈ cs, a.id ≠ c.id ∨ c.isAdmin = true) →
      a ∈ (cs.foldl (bulkStep selector false iG iAt) acc).room.clients := by
  intro cs
  induction cs with
  | nil => exact fun acc a ha _ => ha
  | cons c rest ih =>
      intro acc a ha hcs
      rw [List.foldl_cons]
      exact ih _ a
        (bulkStep_preserves selector iG iAt c acc a ha (hcs c (List.mem_cons_self c rest)))
        (fun d hd => hcs d (List.mem_cons_of_mem c hd))

theorem clearScreenShareProducer_channelId (r : Room) (pid : String) :
    (r.clearScreenShareProducer pid).channelId = r.channelId := by
  unfold Room.clearScreenShareProducer
  split <;> rfl

theorem closeProducersLoop_channelId (targetId : String) (infos : List ProducerRef) :
    ∀ (room : Room) (cAcc : List ProducerRef) (eAcc : List Emit),
      (closeProducersLoop targetId infos room cAcc eAcc).room.channelId =
        room.channelId := by
  induction infos with
  | nil => exact fun room cAcc eAcc => rfl
  | cons info rest ih =>
      intro room cAcc eAcc
      unfold closeProducersLoop
      cases hG : room.getClient targetId with
      | none =>
          dsimp only
          exact ih room cAcc eAcc
      | some t =>
          dsimp only
          cases hR : t.removeProducerById info.producerId with
          | none =>
              dsimp only
              exact ih room cAcc eAcc
          | some pr =>
              obtain ⟨rem, t2⟩ := pr
              dsimp only
              rw [ih]
              split
              · rw [clearScreenShareProducer_channelId]
                rfl
              · rfl

theorem closeClientProducers_channelId (room : Room) (uid : String) (selector : Selector) :
    (closeClientProducers room uid selector).room.channelId = room.channelId := by
  unfold closeClientProducers
  cases hG : room.getClient uid with
  | none => rfl
  | some target =>
      dsimp only
      split
      · exact closeProducersLoop_channelId uid _ room [] []
      · exact closeProducersLoop_channelId uid _ room [] []

theorem bulkStep_channelId (selector : Selector) (iA iG iAt : Bool) (c : Client)
    (acc : BulkResult) :
    (bulkStep selector iA iG iAt acc c).room.channelId = acc.room.channelId := by
  unfold bulkStep
  split
  · rfl
  · split
    · rfl
    · split
      · rfl
      · dsimp only
        split
        · exact closeClientProducers_channelId _ _ _
        · exact closeClientProducers_channelId _ _ _

theorem bulkFold_channelId (selector : Selector) (iA iG iAt : Bool) :
    ∀ (cs : List Client) (acc : BulkResult),
      (cs.foldl (bulkStep selector iA iG iAt) acc).room.channelId =
        acc.room.channelId := by
  intro cs
  induction cs with
  | nil => exact fun acc => rfl
  | cons c rest ih =>
      intro acc
      rw [List.foldl_cons, ih, bulkStep_channelId]

theorem notifyProducerClosed_no_bulk (room : Room) (ownerId : String) (ch : String) :
    Emit.toChannel ch "admin:bulkMediaEnforced" ∉ notifyProducerClosed room ownerId := by
  intro hmem
  unfold notifyProducerClosed at hmem
  rcases List.mem_append.mp hmem with h | h
  · rcases List.mem_map.mp h with ⟨c, _, hEq⟩
    exact Emit.noConfusion hEq
  · have hEq := List.mem_singleton.mp h
    injection hEq with h1 h2
    exact absurd h2 (by decide)

theorem closeProducersLoop_no_bulk (targetId : String) (infos : List ProducerRef) :
    ∀ (room : Room) (cAcc : List ProducerRef) (eAcc : List Emit) (ch : String),
      Emit.toChannel ch "admin:bulkMediaEnforced" ∉ eAcc →
      Emit.toChannel ch "admin:bulkMediaEnforced" ∉
        (closeProducersLoop targetId infos room cAcc eAcc).emits := by
  induction infos with
  | nil => exact fun room cAcc eAcc ch h => h
  | cons info rest ih =>
      intro room cAcc eAcc ch h
      unfold closeProducersLoop
      cases hG : room.getClient targetId with
      | none =>
          dsimp only
          exact ih room cAcc eAcc ch h
      | some t =>
          dsimp only
          cases hR : t.removeProducerById info.producerId with
          | none =>
              dsimp only
              exact ih room cAcc eAcc ch h
          | some pr =>
              obtain ⟨rem, t2⟩ := pr
              dsimp only
              apply ih
              intro hmem
              rcases List.mem_append.mp hmem with h1 | h1
              · exact h h1
              · exact notifyProducerClosed_no_bulk _ _ _ h1

theorem closeClientProducers_no_bulk (room : Room) (uid : String) (selector : Selector)
    (ch : String) :
    Emit.toChannel ch "admin:bulkMediaEnforced" ∉
      (closeClientProducers room uid selector).emits := by
  unfold closeClientProducers
  cases hG : room.getClient uid with
  | none => exact List.not_mem_nil _
  | some target =>
      dsimp only
      split
      · intro hmem
        rcases List.mem_append.mp hmem with h | h
        · rcases List.mem_append.mp h with h1 | h1
          · exact closeProducersLoop_no_bulk uid _ room [] [] ch (List.not_mem_nil _) h1
          · have hEq := List.mem_singleton.mp h1
            injection hEq with h1 h2
            exact absurd h2 (by decide)
        · have hEq := List.mem_singleton.mp h
          exact Emit.noConfusion hEq
      · exact closeProducersLoop_no_bulk uid _ room [] [] ch (List.not_mem_nil _)

theorem bulkStep_no_bulk (selector : Selector) (iA iG iAt : Bool) (c : Client)
    (acc : BulkResult) (ch : String)
    (h : Emit.toChannel ch "admin:bulkMediaEnforced" ∉ acc.emits) :
    Emit.toChannel ch "admin:bulkMediaEnforced" ∉
      (bulkStep selector iA iG iAt acc c).emits := by
  unfold bulkStep
  split
  · exact h
  · split
    · exact h
    · split
      · exact h
      · dsimp only
        split
        · intro hmem
          rcases List.mem_append.mp hmem with h1 | h1
          · exact h h1
          · exact closeClientProducers_no_bulk _ _ _ ch h1
        · intro hmem
          rcases List.mem_append.mp hmem with h1 | h1
          · exact h h1
          · exact closeClientProducers_no_bulk _ _ _ ch h1

theorem bulkFold_no_bulk (selector : Selector) (iA iG iAt : Bool) :
    ∀ (cs : List Client) (acc : BulkResult) (ch : String),
      Emit.toChannel ch "admin:bulkMediaEnforced" ∉ acc.emits →
      Emit.toChannel ch "admin:bulkMediaEnforced" ∉
        (cs.foldl (bulkStep selector iA iG iAt) acc).emits := by
  intro cs
  induction cs with
  | nil => exact fun acc ch h => h
  | cons c rest ih =>
      intro acc ch h
      rw [List.foldl_cons]
      exact ih _ ch (bulkStep_no_bulk selector iA iG iAt c acc ch h)

/-- Claim C9: bulk media closures (`muteAll`, `closeAllVideo`,
`admin:stopAllScreenShare` all dispatch into `performBulkMediaClosure`)
never touch admin participants unless `includeAdmins = true` is
explicitly set — with the flag unset every admin record, producers
included, survives unchanged — and the room-wide
`admin:bulkMediaEnforced` broadcast is emitted exactly when at least
one producer was closed. -/
theorem bulkClosure_admins_and_event (room : Room) (selector : Selector)
    (iG iAt : Bool)
    (hnodup : (room.clients.map (fun c => c.id)).Nodup) :
    (∀ a ∈ room.clients, a.isAdmin = true →
      a ∈ (performBulkMediaClosure room selector false iG iAt).room.clients) ∧
    (∀ iA : Bool,
      (Emit.toChannel room.channelId "admin:bulkMediaEnforced" ∈
          (performBulkMediaClosure room selector iA iG iAt).emits) ↔
        0 < (performBulkMediaClosure room selector iA iG iAt).affectedProducers) := by
  constructor
  · intro a ha hadmin
    unfold performBulkMediaClosure
    dsimp only
    have hmem : a ∈ (room.clients.foldl
        (bulkStep selector false iG iAt) ⟨room, 0, 0, [], []⟩).room.clients := by
      apply bulkFold_preserves selector iG iAt room.clients _ a ha
      intro c hc
      cases hAd : c.isAdmin with
      | true => exact Or.inr rfl
      | false =>
          left
          intro hid
          have hac : a = c :=
            List.inj_on_of_nodup_map hnodup ha hc hid
          rw [hac, hAd] at hadmin
          exact Bool.noConfusion hadmin
    split
    · exact hmem
    · exact hmem
  · intro iA
    unfold performBulkMediaClosure
    dsimp only
    have hch : (room.clients.foldl (bulkStep selector iA iG iAt)
        ⟨room, 0, 0, [], []⟩).room.channelId = room.channelId :=
      bulkFold_channelId selector iA iG iAt room.clients _
    have hnb : Emit.toChannel room.channelId "admin:bulkMediaEnforced" ∉
        (room.clients.foldl (bulkStep selector iA iG iAt) ⟨room, 0, 0, [], []⟩).emits :=
      bulkFold_no_bulk selector iA iG iAt room.clients _ _ (List.not_mem_nil _)
    split
    · rename_i hpos
      constructor
      · intro _
        exact hpos
      · intro _
        apply List.mem_append_right
        rw [hch]
        exact List.mem_singleton.mpr rfl
    · rename_i hneg
      constructor
      · intro hmem
        exact absurd hmem hnb
      · intro hpos
        exact absurd hpos hneg

/-- Witness for claim C9: in the room with one admin and one
participant, both holding audio producers, the audio bulk closure with
`includeAdmins = false` preserves the admin record and emits the
room-wide event (one producer was closed). -/
theorem bulkClosure_admins_and_event_witness :
    ((adminBobRoom.clients.map (fun c => c.id)).Nodup) ∧
    (hostClient ∈ adminBobRoom.clients) ∧ (hostClient.isAdmin = true) ∧
    (hostClient ∈ (performBulkMediaClosure adminBobRoom
        ⟨some [MediaKind.audio], none⟩ false false false).room.clients) ∧
    ((Emit.toChannel adminBobRoom.channelId "admin:bulkMediaEnforced" ∈
        (performBulkMediaClosure adminBobRoom
          ⟨some [MediaKind.audio], none⟩ false false false).emits) ↔
      0 < (performBulkMediaClosure adminBobRoom
          ⟨some [MediaKind.audio], none⟩ false false false).affectedProducers) :=
  ⟨by decide, by decide, by decide,
    (bulkClosure_admins_and_event adminBobRoom ⟨some [MediaKind.audio], none⟩
        false false (by decide)).1 hostClient (by decide) (by decide),
    (bulkClosure_admins_and_event adminBobRoom ⟨some [MediaKind.audio], none⟩
        false false (by decide)).2 false⟩

/-! ## Claim C5 -/

theorem prefix_before_suffix {α : Type} (l₁ l₂ : List α) (p q : α → Bool)
    (hp : ∀ e ∈ l₂, p e = false) (hq : ∀ e ∈ l₁, q e = false) :
    ∀ (i j : Nat) (e f : α), (l₁ ++ l₂)[i]? = some e → (l₁ ++ l₂)[j]? = some f →
      p e = true → q f = true → i < j := by
  intro i j e f hi hj hpe hqf
  have hiLt : i < l₁.length := by
    by_contra hge
    push_neg at hge
    rw [List.getElem?_append_right hge] at hi
    have hmem : e ∈ l₂ := List.getElem?_mem hi
    rw [hp e hmem] at hpe
    exact Bool.noConfusion hpe
  have hjGe : l₁.length ≤ j := by
    by_contra hlt
    push_neg at hlt
    rw [List.getElem?_append_left hlt] at hj
    have hmem : f ∈ l₁ := List.getElem?_mem hj
    rw [hq f hmem] at hqf
    exact Bool.noConfusion hqf
  omega

theorem parseRestartNoticeMs_le (v : Option Int) : parseRestartNoticeMs v ≤ 30000 := by
  unfold parseRestartNoticeMs
  cases v with
  | none => norm_num
  | some w =>
      dsimp only
      split
      · norm_num
      · exact min_le_right w 30000

/-- Claim C5: in the forced-drain trace every `serverRestarting` notice
(to a room channel or to a pending socket) precedes every
disconnection; the optional sleep carries the clamped duration
`parseRestartNoticeMs` (at most 30000 ms) and also precedes every
disconnection; and every room-channel disconnection precedes every
pending-socket disconnection. -/
theorem drain_order (rooms : List Room) (noticeMs : Option Int) :
    (∀ (i j : Nat) (e f : Emit), (handleDrainForce rooms noticeMs)[i]? = some e →
      (handleDrainForce rooms noticeMs)[j]? = some f →
      isRestartNotice e = true → isDisconnectEmit f = true → i < j) ∧
    (∀ (i j : Nat) (e f : Emit), (handleDrainForce rooms noticeMs)[i]? = some e →
      (handleDrainForce rooms noticeMs)[j]? = some f →
      isSleepEmit e = true → isDisconnectEmit f = true → i < j) ∧
    (∀ (i j : Nat) (e f : Emit), (handleDrainForce rooms noticeMs)[i]? = some e →
      (handleDrainForce rooms noticeMs)[j]? = some f →
      isChannelDisconnect e = true → isSocketDisconnect f = true → i < j) ∧
    (∀ ms : Int, Emit.sleep ms ∈ handleDrainForce rooms noticeMs →
      ms = parseRestartNoticeMs noticeMs ∧ ms ≤ 30000) := by
  refine ⟨?_, ?_, ?_, ?_⟩
  · have hsplit : handleDrainForce rooms noticeMs =
        (rooms.map (fun r => Emit.toChannel r.channelId "serverRestarting")
          ++ (pendingSocketsOf rooms).map (fun s => Emit.toSocket s "serverRestarting"))
        ++ ((if 0 < parseRestartNoticeMs noticeMs then
              [Emit.sleep (parseRestartNoticeMs noticeMs)] else [])
          ++ (rooms.map (fun r => Emit.disconnectChannel r.channelId)
            ++ (pendingSocketsOf rooms).map (fun s => Emit.disconnectSocket s))) := by
      unfold handleDrainForce
      simp only [List.append_assoc]
    rw [hsplit]
    apply prefix_before_suffix
    · intro e he
      rcases List.mem_append.mp he with h | h
      · by_cases hms : 0 < parseRestartNoticeMs noticeMs
        · rw [if_pos hms] at h
          rw [List.mem_singleton.mp h]
          rfl
        · rw [if_neg hms] at h
          cases h
      · rcases List.mem_append.mp h with h | h
        · rcases List.mem_map.mp h with ⟨r, _, rfl⟩
          rfl
        · rcases List.mem_map.mp h with ⟨s, _, rfl⟩
          rfl
    · intro e he
      rcases List.mem_append.mp he with h | h
      · rcases List.mem_map.mp h with ⟨r, _, rfl⟩
        rfl
      · rcases List.mem_map.mp h with ⟨s, _, rfl⟩
        rfl
  · have hsplit : handleDrainForce rooms noticeMs =
        ((rooms.map (fun r => Emit.toChannel r.channelId "serverRestarting")
          ++ ((pendingSocketsOf rooms).map (fun s => Emit.toSocket s "serverRestarting")
            ++ (if 0 < parseRestartNoticeMs noticeMs then
              [Emit.sleep (parseRestartNoticeMs noticeMs)] else [])))
        ++ (rooms.map (fun r => Emit.disconnectChannel r.channelId)
          ++ (pendingSocketsOf rooms).map (fun s => Emit.disconnectSocket s))) := by
      unfold handleDrainForce
      simp only [List.append_assoc]
    rw [hsplit]
    apply prefix_before_suffix
    · intro e he
      rcases List.mem_append.mp he with h | h
      · rcases List.mem_map.mp h with ⟨r, _, rfl⟩
        rfl
      · rcases List.mem_map.mp h with ⟨s, _, rfl⟩
        rfl
    · intro e he
      rcases List.mem_append.mp he with h | h
      · rcases List.mem_map.mp h with ⟨r, _, rfl⟩
        rfl
      · rcases List.mem_append.mp h with h | h
        · rcases List.mem_map.mp h with ⟨s, _, rfl⟩
          rfl
        · by_cases hms : 0 < parseRestartNoticeMs noticeMs
          · rw [if_pos hms] at h
            rw [List.mem_singleton.mp h]
            rfl
          · rw [if_neg hms] at h
            cases h
  · have hsplit : handleDrainForce rooms noticeMs =
        ((rooms.map (fun r => Emit.toChannel r.channelId "serverRestarting")
          ++ ((pendingSocketsOf rooms).map (fun s => Emit.toSocket s "serverRestarting")
            ++ ((if 0 < parseRestartNoticeMs noticeMs then
                [Emit.sleep (parseRestartNoticeMs noticeMs)] else [])
              ++ rooms.map (fun r => Emit.disconnectChannel r.channelId))))
        ++ (pendingSocketsOf rooms).map (fun s => Emit.disconnectSocket s)) := by
      unfold handleDrainForce
      simp only [List.append_assoc]
    rw [hsplit]
    apply prefix_before_suffix
    · intro e he
      rcases List.mem_map.mp he with ⟨s, _, rfl⟩
      rfl
    · intro e he
      rcases List.mem_append.mp he with h | h
      · rcases List.mem_map.mp h with ⟨r, _, rfl⟩
        rfl
      · rcases List.mem_append.mp h with h | h
        · rcases List.mem_map.mp h with ⟨s, _, rfl⟩
          rfl
        · rcases List.mem_append.mp h with h | h
          · by_cases hms : 0 < parseRestartNoticeMs noticeMs
            · rw [if_pos hms] at h
              rw [List.mem_singleton.mp h]
              rfl
            · rw [if_neg hms] at h
              cases h
          · rcases List.mem_map.mp h with ⟨r, _, rfl⟩
            rfl
  · intro ms hmem
    unfold handleDrainForce at hmem
    dsimp only at hmem
    rcases List.mem_append.mp hmem with h | h
    · rcases List.mem_append.mp h with h | h
      · rcases List.mem_append.mp h with h | h
        · rcases List.mem_append.mp h with h | h
          · rcases List.mem_map.mp h with ⟨r, _, hEq⟩
            exact Emit.noConfusion hEq
          · rcases List.mem_map.mp h with ⟨s, _, hEq⟩
            exact Emit.noConfusion hEq
        · by_cases hms : 0 < parseRestartNoticeMs noticeMs
          · rw [if_pos hms] at h
            have hEq := List.mem_singleton.mp h
            injection hEq with h1
            exact ⟨h1, h1 ▸ parseRestartNoticeMs_le noticeMs⟩
          · rw [if_neg hms] at h
            cases h
      · rcases List.mem_map.mp h with ⟨r, _, hEq⟩
        exact Emit.noConfusion hEq
    · rcases List.mem_map.mp h with ⟨s, _, hEq⟩
      exact Emit.noConfusion hEq

/-- Witness for claim C5: one room with one pending socket and a 100 ms
notice delay; the channel notice at index 0 precedes the channel
disconnect at index 3, and the sleep is the clamped 100 ms. -/
theorem drain_order_witness :
    ((handleDrainForce [pendingOnlyRoom] (some 100))[0]? =
      some (Emit.toChannel "default:r1" "serverRestarting")) ∧
    ((handleDrainForce [pendingOnlyRoom] (some 100))[3]? =
      some (Emit.disconnectChannel "default:r1")) ∧
    (0 : Nat) < 3 ∧
    ((100 : Int) = parseRestartNoticeMs (some 100) ∧ (100 : Int) ≤ 30000) :=
  ⟨by decide, by decide,
    (drain_order [pendingOnlyRoom] (some 100)).1 0 3
      (Emit.toChannel "default:r1" "serverRestarting")
      (Emit.disconnectChannel "default:r1")
      (by decide) (by decide) (by decide) (by decide),
    (drain_order [pendingOnlyRoom] (some 100)).2.2.2 100 (by decide)⟩
